import Mathlib

/-!
Verification development for the Salience workflow core.

This file gives a shallow embedding, in Lean 4, of the workflow control core
of the Salience repository (salience.py, Utilities/TaskHandling.py,
CustomAgents/StatusAgent.py, CustomAgents/TaskCreationAgent.py) and proves
properties of that embedding.

Modelling conventions:
- External collaborators (the document store, the YAML parsing utility, the
  text-generation agents, the uuid generator) appear as explicit inputs.
  A store read is an `Except StoreErr` value; parsed YAML content is an
  `Option` association list; the uuid generator is a list of generated
  strings, one per task, in generation order.
- Python dictionaries holding task records become Lean structures.  Store
  ids are decimal strings of numbers (`str(i + 1)` in `id_generator`,
  `str(task["Order"])` in `save_tasks`), embedded as `Nat.repr` applied to
  the same numbers.
- Python floats (the frustration scalar) are embedded as exact rationals.
- Methods that only perform side effects (logging, store writes) are
  embedded as functions returning a description of the effect: the list of
  executor invocations performed, the save parameters passed to the store,
  or the text appended to the results log.
-/

/-- Error cases for a store read, used to model the external document store
failing to answer (`StoreUnavailable`) or failing in some other way. -/
inductive StoreErr where
  | storeUnavailable
  | otherReadError
deriving DecidableEq, Repr

/-- The metadata dictionary persisted with each task in the `"Tasks"`
collection.  `TaskCreationAgent.save_tasks` writes all four keys;
`StatusAgent.save_status` writes only `Status`, `Description` and `Order`,
so `listID` is optional. -/
structure TaskMeta where
  status : String
  description : String
  order : Nat
  listID : Option String
deriving DecidableEq, Repr

/-- One task record in the `"Tasks"` collection: its store id, its document
text, and its metadata.  This is also the shape returned by
`TaskHandling.get_current_task` (the dict with keys `id`, `document`,
`metadata`). -/
structure StoredTask where
  id : String
  document : String
  metadata : TaskMeta
deriving DecidableEq, Repr

/-- An action descriptor returned by the action-selection collaborator
(a dict with keys `Name` and `Description`). -/
structure SelectedAction where
  name : String
  description : String
deriving DecidableEq, Repr

namespace Salience

/-- The two executors `Salience.check_for_actions` can invoke in one
iteration. -/
inductive Invocation where
  | executeAction
  | executeTask
deriving DecidableEq, Repr

/-- Embedding of `Salience.check_for_actions` (salience.py lines 133-143).
The action-selection collaborator result is the input; the output is the
list of executor invocations performed, in order.  The source reads:
`if self.selected_action: self.execute_action(); self.execute_task()`
`else: pass`. -/
def check_for_actions (selected_action : Option SelectedAction) : List Invocation :=
  match selected_action with
  | some _ => [Invocation.executeAction, Invocation.executeTask]
  | none => []

/-- Embedding of `Salience.frustrate` (salience.py lines 264-274), acting on
the frustration value.  The source: if `frustration < max_frustration`,
then `frustration += frustration_step` followed by
`frustration = min(frustration, max_frustration)`; otherwise the value is
left unchanged (only a log line is emitted). -/
def frustrate (step maxF f : ℚ) : ℚ :=
  if f < maxF then min (f + step) maxF else f

/-- Embedding of `Salience.handle_frustration` (salience.py lines 297-308),
acting on the frustration value given the status string of the current
status result.  The source: if `status != "completed"` call `frustrate`,
else reset `frustration = min_frustration`. -/
def handle_frustration (minF step maxF : ℚ) (status : String) (f : ℚ) : ℚ :=
  if status ≠ "completed" then frustrate step maxF f else minF

/-- Folding `handle_frustration` over a sequence of task outcome statuses,
one loop iteration per status. -/
def run_outcomes (minF step maxF : ℚ) (f : ℚ) (statuses : List String) : ℚ :=
  statuses.foldl (fun g s => handle_frustration minF step maxF s g) f

end Salience

namespace TaskHandling

/-- The comparison used by `TaskHandling.get_ordered_task_list`
(`key=lambda x: x[2]["Order"]`): comparison of the `Order` metadata. -/
def taskOrderLE (a b : StoredTask) : Prop :=
  a.metadata.order ≤ b.metadata.order

instance : DecidableRel taskOrderLE :=
  fun a b => Nat.decLe a.metadata.order b.metadata.order

instance : IsTotal StoredTask taskOrderLE :=
  ⟨fun a b => Nat.le_total a.metadata.order b.metadata.order⟩

instance : IsTrans StoredTask taskOrderLE :=
  ⟨fun _ _ _ => Nat.le_trans⟩

/-- Embedding of `TaskHandling.get_ordered_task_list`
(TaskHandling.py lines 51-84).  The store read is the input:
`Except.ok c` is a successful `load_collection` snapshot (tasks in store
order), `Except.error e` a failing one.  On success the source pairs ids,
documents and metadatas and applies Python `sorted` with key `Order` — a
stable sort, embedded as the stable `List.insertionSort` (any two stable
sorts by the same key agree).  Any exception, including an unavailable
store, is caught and turned into the empty structure
`{ids: [], embeddings: [], documents: [], metadatas: []}`.  (On an empty
snapshot the source raises at `zip(*sorted_tasks)` and likewise returns
the empty structure via the handler, so the embedding agrees there too.) -/
def get_ordered_task_list (store : Except StoreErr (List StoredTask)) : List StoredTask :=
  match store with
  | Except.error _ => []
  | Except.ok c => c.insertionSort taskOrderLE

/-- The scan predicate of `TaskHandling.get_current_task`
(`metadata["Status"] == "not completed"`). -/
def isNotCompleted (t : StoredTask) : Bool :=
  t.metadata.status == "not completed"

/-- Embedding of `TaskHandling.get_current_task` (TaskHandling.py lines
27-49): first task of the ordered list whose `Status` is `"not completed"`,
`none` when no such task exists.  The enclosing `except` handler also
returns `None` on any error, which the `Except.error` case of
`get_ordered_task_list` already yields (the scan over the empty structure
finds nothing). -/
def get_current_task (store : Except StoreErr (List StoredTask)) : Option StoredTask :=
  (get_ordered_task_list store).find? isNotCompleted

/-- Modelled from the spec: the `loadOrdered` contract of section 4.1,
which demands that the operation *fail* with `StoreUnavailable` when the
collaborator store cannot answer, instead of degrading to an empty list.
Used only to contrast with `get_ordered_task_list`, the embedding of the
source. -/
def loadOrderedSpec (store : Except StoreErr (List StoredTask)) :
    Except StoreErr (List StoredTask) :=
  match store with
  | Except.error e => Except.error e
  | Except.ok c => Except.ok (c.insertionSort taskOrderLE)

end TaskHandling

namespace Salience

/-- Outcome of `Salience.determine_current_task` (salience.py lines
145-152) for one iteration: either the loop continues with the current
task, or the process is terminated by `quit()` because
`get_current_task` returned `None`.  (`quit()` raises `SystemExit`, which
none of the surrounding `except Exception` handlers intercepts, so the
process really halts.) -/
inductive IterationOutcome where
  | halt
  | proceed (t : StoredTask)
deriving DecidableEq, Repr

/-- Embedding of `Salience.determine_current_task`. -/
def determine_current_task (store : Except StoreErr (List StoredTask)) : IterationOutcome :=
  match TaskHandling.get_current_task store with
  | none => IterationOutcome.halt
  | some t => IterationOutcome.proceed t

end Salience

namespace TaskHandling

theorem sorted_ordered_list (c : List StoredTask) :
    (c.insertionSort taskOrderLE).Pairwise taskOrderLE :=
  List.sorted_insertionSort taskOrderLE c

theorem find?_min_order (p : StoredTask → Bool) :
    ∀ l : List StoredTask,
      l.Pairwise taskOrderLE →
      ∀ t, l.find? p = some t →
      ∀ u ∈ l, p u → t.metadata.order ≤ u.metadata.order := by
  intro l
  induction l with
  | nil => intro _ t ht; simp at ht
  | cons x xs ih =>
    intro hpw t ht u hu hpu
    rw [List.pairwise_cons] at hpw
    by_cases hx : p x
    · rw [List.find?_cons_of_pos _ hx] at ht
      have hxt : x = t := by injection ht
      subst hxt
      rcases List.mem_cons.mp hu with rfl | hu2
      · exact le_refl _
      · exact hpw.1 u hu2
    · rw [List.find?_cons_of_neg _ hx] at ht
      rcases List.mem_cons.mp hu with rfl | hu2
      · exact absurd hpu hx
      · exact ih hpw.2 t ht u hu2 hpu

theorem stable_filter_insertionSort (c : List StoredTask) (k : Nat) :
    (c.insertionSort taskOrderLE).filter (fun t => t.metadata.order == k) =
      c.filter (fun t => t.metadata.order == k) := by
  have hall : ∀ a ∈ c.filter (fun t => t.metadata.order == k), a.metadata.order = k := by
    intro a ha
    simpa using List.of_mem_filter ha
  have hsub : List.Sublist (c.filter (fun t => t.metadata.order == k))
      (c.insertionSort taskOrderLE) := by
    apply List.sublist_insertionSort
    · apply List.pairwise_of_forall_mem_list
      intro a ha b hb
      show a.metadata.order ≤ b.metadata.order
      rw [hall a ha, hall b hb]
    · exact List.filter_sublist c
  have hsub2 := hsub.filter (fun t => t.metadata.order == k)
  simp only [List.filter_filter, Bool.and_self] at hsub2
  have hlen : ((c.insertionSort taskOrderLE).filter (fun t => t.metadata.order == k)).length =
      (c.filter (fun t => t.metadata.order == k)).length :=
    ((List.perm_insertionSort taskOrderLE c).filter _).length_eq
  exact (hsub2.eq_of_length hlen.symm).symm

end TaskHandling

/-- C9 (amended): `get_ordered_task_list` on a successful read sorts the
fetched tasks by `Order` ascending with a stable sort: the result is
sorted, is a permutation of the snapshot, and tasks sharing an `Order`
value keep their original store order; on any read error, including an
unavailable store, it returns an empty list rather than propagating an
error. -/
theorem orderedTaskList_sorted_stable_degrades :
    (∀ c : List StoredTask,
      (TaskHandling.get_ordered_task_list (Except.ok c)).Pairwise
        (fun a b => a.metadata.order ≤ b.metadata.order) ∧
      (TaskHandling.get_ordered_task_list (Except.ok c)).Perm c ∧
      (∀ k : Nat,
        (TaskHandling.get_ordered_task_list (Except.ok c)).filter
            (fun t => t.metadata.order == k) =
          c.filter (fun t => t.metadata.order == k))) ∧
    (∀ e, TaskHandling.get_ordered_task_list (Except.error e) = []) := by
  constructor
  · intro c
    refine ⟨TaskHandling.sorted_ordered_list c, List.perm_insertionSort TaskHandling.taskOrderLE c, ?_⟩
    intro k
    exact TaskHandling.stable_filter_insertionSort c k
  · intro e
    rfl

/-- C9 (counterexample to the claim as stated): when the store cannot
answer, `get_ordered_task_list` does not fail with `StoreUnavailable`; it
returns the empty list, while the spec-modelled `loadOrderedSpec`
propagates the error.  The code and the spec contract therefore disagree
at this input. -/
theorem orderedTaskList_storeUnavailable_no_failure :
    TaskHandling.get_ordered_task_list (Except.error StoreErr.storeUnavailable) = [] ∧
    TaskHandling.loadOrderedSpec (Except.error StoreErr.storeUnavailable) =
      Except.error StoreErr.storeUnavailable ∧
    Except.ok (TaskHandling.get_ordered_task_list (Except.error StoreErr.storeUnavailable)) ≠
      TaskHandling.loadOrderedSpec (Except.error StoreErr.storeUnavailable) := by
  refine ⟨rfl, rfl, ?_⟩
  intro h
  exact Except.noConfusion h

/-- C2: on a queue snapshot whose statuses are the two values of the data
model, `get_current_task` returns a not-completed task of minimum `Order`
among the not-completed tasks, and returns `None` exactly when every task
is completed (so also when the queue is empty). -/
theorem currentTask_min_not_completed (c : List StoredTask)
    (hwf : ∀ t ∈ c, t.metadata.status = "completed" ∨ t.metadata.status = "not completed") :
    (∀ t, TaskHandling.get_current_task (Except.ok c) = some t →
        t ∈ c ∧ t.metadata.status = "not completed" ∧
        ∀ u ∈ c, u.metadata.status = "not completed" →
          t.metadata.order ≤ u.metadata.order) ∧
    (TaskHandling.get_current_task (Except.ok c) = none ↔
      ∀ t ∈ c, t.metadata.status = "completed") := by
  constructor
  · intro t ht
    have hmem : t ∈ c.insertionSort TaskHandling.taskOrderLE := List.mem_of_find?_eq_some ht
    have hp : TaskHandling.isNotCompleted t := List.find?_some ht
    have htc : t ∈ c := (List.mem_insertionSort _).mp hmem
    have hstat : t.metadata.status = "not completed" := by
      simpa [TaskHandling.isNotCompleted] using hp
    refine ⟨htc, hstat, ?_⟩
    intro u hu hust
    exact TaskHandling.find?_min_order TaskHandling.isNotCompleted _
      (TaskHandling.sorted_ordered_list c) t ht u ((List.mem_insertionSort _).mpr hu)
      (by simp [TaskHandling.isNotCompleted, hust])
  · show (c.insertionSort TaskHandling.taskOrderLE).find? TaskHandling.isNotCompleted = none ↔ _
    rw [List.find?_eq_none]
    constructor
    · intro h t htc
      rcases hwf t htc with hc | hnc
      · exact hc
      · exact absurd (by simp [TaskHandling.isNotCompleted, hnc])
          (h t ((List.mem_insertionSort _).mpr htc))
    · intro h t htm
      have hc := h t ((List.mem_insertionSort _).mp htm)
      simp [TaskHandling.isNotCompleted, hc]

/-- Witness for C2 at the concrete scenario snapshot of the spec:
task A (order 1, not completed) and task B (order 2, completed); the
current task is A. -/
theorem currentTask_min_not_completed_witness :
    ((∀ t, TaskHandling.get_current_task
          (Except.ok [⟨"1", "A", ⟨"not completed", "A", 1, none⟩⟩,
                      ⟨"2", "B", ⟨"completed", "B", 2, none⟩⟩]) = some t →
        t ∈ [⟨"1", "A", ⟨"not completed", "A", 1, none⟩⟩,
             ⟨"2", "B", ⟨"completed", "B", 2, none⟩⟩] ∧
        t.metadata.status = "not completed" ∧
        ∀ u ∈ [(⟨"1", "A", ⟨"not completed", "A", 1, none⟩⟩ : StoredTask),
               ⟨"2", "B", ⟨"completed", "B", 2, none⟩⟩],
          u.metadata.status = "not completed" →
          t.metadata.order ≤ u.metadata.order) ∧
      (TaskHandling.get_current_task
          (Except.ok [⟨"1", "A", ⟨"not completed", "A", 1, none⟩⟩,
                      ⟨"2", "B", ⟨"completed", "B", 2, none⟩⟩]) = none ↔
        ∀ t ∈ [(⟨"1", "A", ⟨"not completed", "A", 1, none⟩⟩ : StoredTask),
               ⟨"2", "B", ⟨"completed", "B", 2, none⟩⟩],
          t.metadata.status = "completed")) ∧
    TaskHandling.get_current_task
        (Except.ok [⟨"1", "A", ⟨"not completed", "A", 1, none⟩⟩,
                    ⟨"2", "B", ⟨"completed", "B", 2, none⟩⟩]) =
      some ⟨"1", "A", ⟨"not completed", "A", 1, none⟩⟩ :=
  ⟨currentTask_min_not_completed _ (by decide), by decide⟩

/-- C10: a store read error makes `get_current_task` return `None`, and
`determine_current_task` then halts the process exactly as it does when
every task of a successfully read snapshot is completed (the
queue-exhausted signal). -/
theorem store_error_halts_like_queue_exhausted :
    (∀ e, TaskHandling.get_current_task (Except.error e) = none) ∧
    (∀ e, Salience.determine_current_task (Except.error e) = Salience.IterationOutcome.halt) ∧
    (∀ c : List StoredTask, (∀ t ∈ c, t.metadata.status = "completed") →
      Salience.determine_current_task (Except.ok c) = Salience.IterationOutcome.halt) := by
  refine ⟨fun e => rfl, fun e => rfl, ?_⟩
  intro c h
  have hnone : TaskHandling.get_current_task (Except.ok c) = none := by
    show (c.insertionSort TaskHandling.taskOrderLE).find? TaskHandling.isNotCompleted = none
    rw [List.find?_eq_none]
    intro t htm
    have hc := h t ((List.mem_insertionSort _).mp htm)
    simp [TaskHandling.isNotCompleted, hc]
  unfold Salience.determine_current_task
  rw [hnone]

/-- Witness for C10: an unavailable store and a fully completed one-task
queue both halt the iteration. -/
theorem store_error_halts_witness :
    Salience.determine_current_task (Except.error StoreErr.storeUnavailable) =
      Salience.IterationOutcome.halt ∧
    Salience.determine_current_task
        (Except.ok [⟨"1", "A", ⟨"completed", "A", 1, none⟩⟩]) =
      Salience.IterationOutcome.halt :=
  ⟨store_error_halts_like_queue_exhausted.2.1 StoreErr.storeUnavailable,
   store_error_halts_like_queue_exhausted.2.2 _ (by decide)⟩

/-- C1 (behavior of the code at the diverging input): when an action is
selected, `check_for_actions` invokes the action executor and then the
direct-execution fallback; when no action is selected it takes the
`else: pass` branch and invokes nothing at all — in particular the
direct-execution fallback is not invoked. -/
theorem checkForActions_no_action_invokes_nothing :
    Salience.check_for_actions (some ⟨"Browse Web", "browse the web for results"⟩) =
      [Salience.Invocation.executeAction, Salience.Invocation.executeTask] ∧
    Salience.check_for_actions none = [] ∧
    Salience.Invocation.executeTask ∉ Salience.check_for_actions none := by
  refine ⟨rfl, rfl, ?_⟩
  intro h
  simp [Salience.check_for_actions] at h

namespace Salience

theorem handle_frustration_preserves_bounds (minF step maxF : ℚ)
    (hstep : 0 ≤ step) (hmm : minF ≤ maxF) (s : String) (f : ℚ)
    (h1 : minF ≤ f) (h2 : f ≤ maxF) :
    minF ≤ handle_frustration minF step maxF s f ∧
      handle_frustration minF step maxF s f ≤ maxF := by
  unfold handle_frustration frustrate
  by_cases hs : s ≠ "completed"
  · rw [if_pos hs]
    by_cases hf : f < maxF
    · rw [if_pos hf]
      constructor
      · exact le_min (le_trans h1 (le_add_of_nonneg_right hstep)) (le_trans h1 (le_of_lt hf))
      · exact min_le_right _ _
    · rw [if_neg hf]
      exact ⟨h1, h2⟩
  · rw [if_neg hs]
    exact ⟨le_refl _, hmm⟩

end Salience

/-- C4: with a nonnegative step and `min_frustration ≤ max_frustration`,
the frustration value stays within `[min_frustration, max_frustration]`
across every sequence of task outcomes started inside the interval; a
non-completed outcome never decreases it and keeps it at or below
`max_frustration`; and a single completed outcome sets it exactly to
`min_frustration`. -/
theorem frustration_bounded_monotone_reset (minF step maxF : ℚ)
    (hstep : 0 ≤ step) (hmm : minF ≤ maxF) :
    (∀ (f : ℚ) (statuses : List String), minF ≤ f → f ≤ maxF →
        minF ≤ Salience.run_outcomes minF step maxF f statuses ∧
        Salience.run_outcomes minF step maxF f statuses ≤ maxF) ∧
    (∀ (f : ℚ) (s : String), minF ≤ f → f ≤ maxF → s ≠ "completed" →
        f ≤ Salience.handle_frustration minF step maxF s f ∧
        Salience.handle_frustration minF step maxF s f ≤ maxF) ∧
    (∀ f : ℚ, Salience.handle_frustration minF step maxF "completed" f = minF) := by
  refine ⟨?_, ?_, ?_⟩
  · intro f statuses
    induction statuses generalizing f with
    | nil => intro h1 h2; exact ⟨h1, h2⟩
    | cons s rest ih =>
      intro h1 h2
      have hstepres := Salience.handle_frustration_preserves_bounds minF step maxF
        hstep hmm s f h1 h2
      exact ih _ hstepres.1 hstepres.2
  · intro f s h1 h2 hs
    constructor
    · unfold Salience.handle_frustration Salience.frustrate
      rw [if_pos hs]
      by_cases hf : f < maxF
      · rw [if_pos hf]
        exact le_min (le_add_of_nonneg_right hstep) (le_of_lt hf)
      · rw [if_neg hf]
    · exact (Salience.handle_frustration_preserves_bounds minF step maxF
        hstep hmm s f h1 h2).2
  · intro f
    unfold Salience.handle_frustration
    simp

/-- Witness for C4 at the constants of `Salience.__init__`
(`min_frustration = 0.7`, `frustration_step = 0.1`, `max_frustration = 1`,
all exact rationals here), applied to a concrete two-outcome run. -/
theorem frustration_bounded_monotone_reset_witness :
    ((0 : ℚ) ≤ 1/10 ∧ (7/10 : ℚ) ≤ 1) ∧
    ((7 : ℚ)/10 ≤ Salience.run_outcomes (7/10) (1/10) 1 (7/10) ["not completed", "completed"] ∧
      Salience.run_outcomes (7/10) (1/10) 1 (7/10) ["not completed", "completed"] ≤ 1) ∧
    ((7 : ℚ)/10 ≤ Salience.handle_frustration (7/10) (1/10) 1 "not completed" (7/10) ∧
      Salience.handle_frustration (7/10) (1/10) 1 "not completed" (7/10) ≤ 1) ∧
    Salience.handle_frustration (7/10) (1/10) 1 "completed" (9/10) = 7/10 :=
  ⟨⟨by norm_num, by norm_num⟩,
   (frustration_bounded_monotone_reset (7/10) (1/10) 1 (by norm_num) (by norm_num)).1
     (7/10) ["not completed", "completed"] (le_refl _) (by norm_num),
   (frustration_bounded_monotone_reset (7/10) (1/10) 1 (by norm_num) (by norm_num)).2.1
     (7/10) "not completed" (le_refl _) (by norm_num) (by simp),
   (frustration_bounded_monotone_reset (7/10) (1/10) 1 (by norm_num) (by norm_num)).2.2 (9/10)⟩

namespace TaskCreationAgent

/-- One parsed task of `TaskCreationAgent.parse_result`:
`{"Order": index + 1, "Description": task}`. -/
structure PlannedTask where
  order : Nat
  description : String
deriving DecidableEq, Repr

/-- Embedding of `TaskCreationAgent.parse_result` (TaskCreationAgent.py
lines 6-32).  The external `parse_yaml_string` output is the input:
`none` when no structured content or no `"tasks"` key was found (the
source raises, and the handler sets the result to `[]`), `some tasks` for
the list found under the `"tasks"` key.  On success each description gets
`Order = index + 1`. -/
def parse_result (parsed : Option (List String)) : List PlannedTask :=
  match parsed with
  | none => []
  | some tasks => tasks.enum.map (fun p => ⟨p.1 + 1, p.2⟩)

/-- Embedding of `storage.delete_collection("Tasks")`: the whole
collection is removed. -/
def delete_collection (_store : List StoredTask) : List StoredTask := []

/-- One record of a `storage.save_memory` call: upsert by id — ids already
present are overwritten in place, new ids are appended (the document-store
contract of section 6 of the spec). -/
def upsert (store : List StoredTask) (t : StoredTask) : List StoredTask :=
  if store.any (fun u => u.id == t.id) then
    store.map (fun u => if u.id == t.id then t else u)
  else store ++ [t]

/-- Embedding of `storage.save_memory(params)`: upserts the records of the
call in order. -/
def save_memory (store : List StoredTask) (ts : List StoredTask) : List StoredTask :=
  ts.foldl upsert store

/-- Embedding of `TaskCreationAgent.save_tasks` (TaskCreationAgent.py
lines 45-72): delete the `"Tasks"` collection, then save one record per
task with id `str(task["Order"])` (embedded `Nat.repr`), document the
description, and metadata `Status = "not completed"`, the order and
description, and a generated `List_ID`.  `uuids` is the stream of
`uuid.uuid4()` results, one per task in order; the source generates them
inside the metadata list comprehension. -/
def save_tasks (uuids : List String) (task_list : List PlannedTask)
    (store : List StoredTask) : List StoredTask :=
  save_memory (delete_collection store)
    (task_list.zipWith (fun t u =>
      ⟨Nat.repr t.order, t.description,
       ⟨"not completed", t.description, t.order, some u⟩⟩) uuids)

/-- The `replaceQueue` operation of the spec: `parse_result` on content
whose `"tasks"` key holds the ordered description list, followed by
`save_tasks` (as composed by `save_result`). -/
def replaceQueue (descs uuids : List String) (store : List StoredTask) : List StoredTask :=
  save_tasks uuids (parse_result (some descs)) store

end TaskCreationAgent

namespace TaskCreationAgent

theorem toDigitsCore_append :
    ∀ (n fuel : Nat) (acc : List Char), n < fuel →
      Nat.toDigitsCore 10 fuel n acc = Nat.toDigitsCore 10 (n + 1) n [] ++ acc := by
  intro n
  induction n using Nat.strong_induction_on with
  | _ n ih =>
    intro fuel acc hlt
    obtain ⟨f, rfl⟩ : ∃ f, fuel = f + 1 := ⟨fuel - 1, by omega⟩
    simp only [Nat.toDigitsCore]
    by_cases hn : n / 10 = 0
    · rw [if_pos hn, if_pos hn]
      rfl
    · rw [if_neg hn, if_neg hn]
      have h0 : 0 < n := by
        rcases Nat.eq_zero_or_pos n with h | h
        · subst h; simp at hn
        · exact h
      have h1 : n / 10 < n := Nat.div_lt_self h0 (by omega)
      rw [ih (n / 10) h1 f _ (by omega), ih (n / 10) h1 n _ h1]
      simp

theorem toDigits_base (n : Nat) (hn : n / 10 = 0) :
    Nat.toDigits 10 n = [Nat.digitChar (n % 10)] := by
  show Nat.toDigitsCore 10 (n + 1) n [] = _
  simp only [Nat.toDigitsCore]
  rw [if_pos hn]

theorem toDigits_step (n : Nat) (hn : n / 10 ≠ 0) :
    Nat.toDigits 10 n = Nat.toDigits 10 (n / 10) ++ [Nat.digitChar (n % 10)] := by
  have h0 : 0 < n := by
    rcases Nat.eq_zero_or_pos n with h | h
    · subst h; simp at hn
    · exact h
  have h1 : n / 10 < n := Nat.div_lt_self h0 (by omega)
  show Nat.toDigitsCore 10 (n + 1) n [] = _
  simp only [Nat.toDigitsCore]
  rw [if_neg hn]
  exact toDigitsCore_append (n / 10) n [Nat.digitChar (n % 10)] h1

theorem toDigits_ne_nil (n : Nat) : Nat.toDigits 10 n ≠ [] := by
  by_cases hn : n / 10 = 0
  · rw [toDigits_base n hn]
    simp
  · rw [toDigits_step n hn]
    simp

theorem digitChar_inj_lt10 :
    ∀ a, a < 10 → ∀ b, b < 10 → Nat.digitChar a = Nat.digitChar b → a = b := by
  decide

theorem toDigits_ten_inj : ∀ m n : Nat, Nat.toDigits 10 m = Nat.toDigits 10 n → m = n := by
  intro m
  induction m using Nat.strong_induction_on with
  | _ m ih =>
    intro n h
    by_cases hm : m / 10 = 0 <;> by_cases hn : n / 10 = 0
    · rw [toDigits_base m hm, toDigits_base n hn] at h
      have hd : Nat.digitChar (m % 10) = Nat.digitChar (n % 10) := by
        injection h
      have hmod := digitChar_inj_lt10 (m % 10) (Nat.mod_lt m (by omega))
        (n % 10) (Nat.mod_lt n (by omega)) hd
      omega
    · rw [toDigits_base m hm, toDigits_step n hn] at h
      have hlen := congrArg List.length h
      simp only [List.length_append, List.length_cons, List.length_nil] at hlen
      have hnil : Nat.toDigits 10 (n / 10) = [] :=
        List.length_eq_zero.mp (by omega)
      exact absurd hnil (toDigits_ne_nil _)
    · rw [toDigits_step m hm, toDigits_base n hn] at h
      have hlen := congrArg List.length h
      simp only [List.length_append, List.length_cons, List.length_nil] at hlen
      have hnil : Nat.toDigits 10 (m / 10) = [] :=
        List.length_eq_zero.mp (by omega)
      exact absurd hnil (toDigits_ne_nil _)
    · rw [toDigits_step m hm, toDigits_step n hn] at h
      have h2 := List.append_inj' h (by simp)
      have h0 : 0 < m := by
        rcases Nat.eq_zero_or_pos m with h3 | h3
        · subst h3; simp at hm
        · exact h3
      have hquot := ih (m / 10) (Nat.div_lt_self h0 (by omega)) (n / 10) h2.1
      have hd : Nat.digitChar (m % 10) = Nat.digitChar (n % 10) := by
        have h3 := h2.2
        injection h3
      have hmod := digitChar_inj_lt10 (m % 10) (Nat.mod_lt m (by omega))
        (n % 10) (Nat.mod_lt n (by omega)) hd
      omega

theorem repr_inj : Function.Injective Nat.repr := by
  intro m n h
  apply toDigits_ten_inj
  have h2 : (Nat.toDigits 10 m).asString = (Nat.toDigits 10 n).asString := h
  have h3 := congrArg String.data h2
  simpa [List.asString] using h3

end TaskCreationAgent

namespace TaskCreationAgent

theorem mem_map_fst_enumFrom {β γ : Type*} (g : Nat → γ) :
    ∀ (l : List β) (k : Nat) (x : γ),
      x ∈ (l.enumFrom k).map (fun p => g p.1) → ∃ i, k ≤ i ∧ x = g i := by
  intro l
  induction l with
  | nil => intro k x hx; simp at hx
  | cons b rest ih =>
    intro k x hx
    rw [List.enumFrom_cons, List.map_cons, List.mem_cons] at hx
    rcases hx with rfl | hx
    · exact ⟨k, le_refl k, rfl⟩
    · obtain ⟨i, hki, hxg⟩ := ih (k + 1) x hx
      exact ⟨i, by omega, hxg⟩

theorem nodup_map_fst_enumFrom {β γ : Type*} (g : Nat → γ)
    (hg : Function.Injective g) :
    ∀ (l : List β) (k : Nat), ((l.enumFrom k).map (fun p => g p.1)).Nodup := by
  intro l
  induction l with
  | nil => intro k; simp
  | cons b rest ih =>
    intro k
    rw [List.enumFrom_cons, List.map_cons, List.nodup_cons]
    refine ⟨?_, ih (k + 1)⟩
    intro hmem
    obtain ⟨i, hki, heq⟩ := mem_map_fst_enumFrom g rest (k + 1) _ hmem
    have := hg heq
    omega

theorem map_val_enumFrom {β γ : Type*} (f : β → γ) :
    ∀ (l : List β) (k : Nat), (l.enumFrom k).map (fun p => f p.2) = l.map f := by
  intro l
  induction l with
  | nil => intro k; rfl
  | cons b rest ih =>
    intro k
    rw [List.enumFrom_cons, List.map_cons, List.map_cons, ih (k + 1)]

theorem save_memory_of_disjoint :
    ∀ (ts store : List StoredTask),
      (∀ t ∈ ts, ∀ u ∈ store, u.id ≠ t.id) →
      (ts.map (fun t => t.id)).Nodup →
      save_memory store ts = store ++ ts := by
  intro ts
  induction ts with
  | nil => intro store _ _; simp [save_memory]
  | cons t rest ih =>
    intro store hdisj hnodup
    rw [List.map_cons, List.nodup_cons] at hnodup
    have hany : store.any (fun u => u.id == t.id) = false := by
      rw [List.any_eq_false]
      intro u hu hbe
      exact hdisj t (List.mem_cons_self t rest) u hu (by simpa using hbe)
    have hup : upsert store t = store ++ [t] := by
      rw [upsert, if_neg (by simp [hany])]
    show save_memory (upsert store t) rest = store ++ t :: rest
    rw [hup, ih (store ++ [t]) ?_ hnodup.2]
    · simp
    · intro t2 ht2 u hu
      rcases List.mem_append.mp hu with hus | hut
      · exact hdisj t2 (List.mem_cons_of_mem t ht2) u hus
      · have hu2 : u = t := by simpa using hut
        subst hu2
        intro heq
        apply hnodup.1
        rw [heq]
        exact List.mem_map_of_mem (fun t => t.id) ht2

theorem zipWith_planned :
    ∀ (l : List String) (k : Nat) (us : List String),
      ((l.enumFrom k).map (fun p => (⟨p.1 + 1, p.2⟩ : PlannedTask))).zipWith
          (fun t u => (⟨Nat.repr t.order, t.description,
            ⟨"not completed", t.description, t.order, some u⟩⟩ : StoredTask)) us =
        ((l.zip us).enumFrom k).map (fun q =>
          ⟨Nat.repr (q.1 + 1), q.2.1,
           ⟨"not completed", q.2.1, q.1 + 1, some q.2.2⟩⟩) := by
  intro l
  induction l with
  | nil => intro k us; rfl
  | cons d rest ih =>
    intro k us
    cases us with
    | nil => rfl
    | cons u urest =>
      simp only [List.enumFrom_cons, List.map_cons, List.zip_cons_cons, List.zipWith_cons_cons]
      rw [ih (k + 1) urest]

theorem zip_enum_proj :
    ∀ (l : List String) (us : List String) (k : Nat), us.length = l.length →
      ((l.zip us).enumFrom k).map (fun q => (q.1 + 1, q.2.1)) =
        (l.enumFrom k).map (fun p => (p.1 + 1, p.2)) := by
  intro l
  induction l with
  | nil => intro us k _; rfl
  | cons d rest ih =>
    intro us k hlen
    cases us with
    | nil => simp at hlen
    | cons u urest =>
      simp only [List.zip_cons_cons, List.enumFrom_cons, List.map_cons]
      rw [ih urest (k + 1) (by simpa using hlen)]

theorem repr_succ_inj : Function.Injective (fun i : Nat => Nat.repr (i + 1)) := by
  intro a b hab
  have := repr_inj hab
  omega

theorem replaceQueue_eq (descs uuids : List String) (store : List StoredTask) :
    replaceQueue descs uuids store =
      ((descs.zip uuids).enum).map (fun q =>
        ⟨Nat.repr (q.1 + 1), q.2.1,
         ⟨"not completed", q.2.1, q.1 + 1, some q.2.2⟩⟩) := by
  show save_memory []
      ((((descs.enumFrom 0).map (fun p => (⟨p.1 + 1, p.2⟩ : PlannedTask))).zipWith
        (fun t u => (⟨Nat.repr t.order, t.description,
          ⟨"not completed", t.description, t.order, some u⟩⟩ : StoredTask)) uuids)) = _
  rw [zipWith_planned descs 0 uuids]
  apply save_memory_of_disjoint
  · intro t _ u hu
    simp at hu
  · rw [List.map_map]
    show (((descs.zip uuids).enumFrom 0).map
      (fun p => (fun i => Nat.repr (i + 1)) p.1)).Nodup
    exact nodup_map_fst_enumFrom (fun i => Nat.repr (i + 1)) repr_succ_inj _ 0

end TaskCreationAgent

/-- C6: `replaceQueue` (TaskCreationAgent.parse_result composed with
save_tasks) deletes the whole prior queue and re-inserts one task per
description: the resulting store is exactly the list holding, at index i,
a task with id `Nat.repr (i + 1)`, document and Description the i-th
description, Order `i + 1`, Status `"not completed"`, and the i-th freshly
generated uuid as List_ID; it has one entry per description, every status
is `"not completed"`, the List_ID values are pairwise distinct (the uuid
stream being duplicate-free), and the result does not depend on the prior
store contents. -/
theorem replaceQueue_replaces_whole_queue (descs uuids : List String)
    (store : List StoredTask) (hlen : uuids.length = descs.length)
    (hnd : uuids.Nodup) :
    TaskCreationAgent.replaceQueue descs uuids store =
      ((descs.zip uuids).enum).map (fun q =>
        ⟨Nat.repr (q.1 + 1), q.2.1,
         ⟨"not completed", q.2.1, q.1 + 1, some q.2.2⟩⟩) ∧
    (TaskCreationAgent.replaceQueue descs uuids store).length = descs.length ∧
    (∀ t ∈ TaskCreationAgent.replaceQueue descs uuids store,
        t.metadata.status = "not completed") ∧
    ((TaskCreationAgent.replaceQueue descs uuids store).map
        (fun t => t.metadata.listID)).Nodup ∧
    TaskCreationAgent.replaceQueue descs uuids store =
      TaskCreationAgent.replaceQueue descs uuids [] := by
  refine ⟨TaskCreationAgent.replaceQueue_eq descs uuids store, ?_, ?_, ?_, ?_⟩
  · rw [TaskCreationAgent.replaceQueue_eq descs uuids store]
    simp [List.length_zip, hlen]
  · intro t ht
    rw [TaskCreationAgent.replaceQueue_eq descs uuids store] at ht
    obtain ⟨q, _, rfl⟩ := List.mem_map.mp ht
    rfl
  · rw [TaskCreationAgent.replaceQueue_eq descs uuids store, List.map_map]
    have h1 : ((descs.zip uuids).enumFrom 0).map
        (fun q => some ((fun pr : String × String => pr.2) q.2)) =
        (descs.zip uuids).map (fun pr => some pr.2) :=
      TaskCreationAgent.map_val_enumFrom (fun pr => some pr.2) (descs.zip uuids) 0
    show (((descs.zip uuids).enumFrom 0).map
        (fun q => some ((fun pr : String × String => pr.2) q.2))).Nodup
    rw [h1]
    have h2 : (descs.zip uuids).map (fun pr => some pr.2) =
        ((descs.zip uuids).map Prod.snd).map some := by
      rw [List.map_map]
      rfl
    rw [h2, List.map_snd_zip descs uuids (le_of_eq hlen)]
    exact hnd.map (Option.some_injective String)
  · rw [TaskCreationAgent.replaceQueue_eq descs uuids store,
      TaskCreationAgent.replaceQueue_eq descs uuids []]

/-- Witness for C6 at the scenario of the spec: replacing a queue holding
one completed task by the descriptions `["X", "Y"]` yields exactly two
tasks, orders 1 and 2, descriptions X and Y, fresh distinct List_IDs, and
both statuses `"not completed"`. -/
theorem replaceQueue_replaces_whole_queue_witness :
    (TaskCreationAgent.replaceQueue ["X", "Y"] ["uuid-a", "uuid-b"]
        [⟨"1", "Old", ⟨"completed", "Old", 1, some "uuid-c"⟩⟩] =
      (((["X", "Y"]).zip ["uuid-a", "uuid-b"]).enum).map (fun q =>
        ⟨Nat.repr (q.1 + 1), q.2.1,
         ⟨"not completed", q.2.1, q.1 + 1, some q.2.2⟩⟩) ∧
    (TaskCreationAgent.replaceQueue ["X", "Y"] ["uuid-a", "uuid-b"]
        [⟨"1", "Old", ⟨"completed", "Old", 1, some "uuid-c"⟩⟩]).length = 2 ∧
    (∀ t ∈ TaskCreationAgent.replaceQueue ["X", "Y"] ["uuid-a", "uuid-b"]
        [⟨"1", "Old", ⟨"completed", "Old", 1, some "uuid-c"⟩⟩],
        t.metadata.status = "not completed") ∧
    ((TaskCreationAgent.replaceQueue ["X", "Y"] ["uuid-a", "uuid-b"]
        [⟨"1", "Old", ⟨"completed", "Old", 1, some "uuid-c"⟩⟩]).map
        (fun t => t.metadata.listID)).Nodup ∧
    TaskCreationAgent.replaceQueue ["X", "Y"] ["uuid-a", "uuid-b"]
        [⟨"1", "Old", ⟨"completed", "Old", 1, some "uuid-c"⟩⟩] =
      TaskCreationAgent.replaceQueue ["X", "Y"] ["uuid-a", "uuid-b"] []) ∧
    TaskCreationAgent.replaceQueue ["X", "Y"] ["uuid-a", "uuid-b"]
        [⟨"1", "Old", ⟨"completed", "Old", 1, some "uuid-c"⟩⟩] =
      [⟨"1", "X", ⟨"not completed", "X", 1, some "uuid-a"⟩⟩,
       ⟨"2", "Y", ⟨"not completed", "Y", 2, some "uuid-b"⟩⟩] :=
  ⟨replaceQueue_replaces_whole_queue ["X", "Y"] ["uuid-a", "uuid-b"]
      [⟨"1", "Old", ⟨"completed", "Old", 1, some "uuid-c"⟩⟩] (by decide) (by decide),
   by decide⟩

/-- C7: calling `replaceQueue` twice with the same ordered description
list yields a queue with the same orders and descriptions as calling it
once (the store ids coincide as well; only the `List_ID` values may
differ, coming from fresh uuid draws), and every status is
`"not completed"` after either call. -/
theorem replaceQueue_idempotent_effect (descs u1 u2 : List String)
    (store : List StoredTask)
    (h1 : u1.length = descs.length) (h2 : u2.length = descs.length) :
    ((TaskCreationAgent.replaceQueue descs u2
          (TaskCreationAgent.replaceQueue descs u1 store)).map
        (fun t => (t.metadata.order, t.metadata.description)) =
      (TaskCreationAgent.replaceQueue descs u1 store).map
        (fun t => (t.metadata.order, t.metadata.description))) ∧
    (∀ t ∈ TaskCreationAgent.replaceQueue descs u2
        (TaskCreationAgent.replaceQueue descs u1 store),
        t.metadata.status = "not completed") ∧
    (∀ t ∈ TaskCreationAgent.replaceQueue descs u1 store,
        t.metadata.status = "not completed") := by
  refine ⟨?_, ?_, ?_⟩
  · rw [TaskCreationAgent.replaceQueue_eq descs u2 _,
      TaskCreationAgent.replaceQueue_eq descs u1 store, List.map_map, List.map_map]
    show ((descs.zip u2).enumFrom 0).map (fun q => (q.1 + 1, q.2.1)) =
      ((descs.zip u1).enumFrom 0).map (fun q => (q.1 + 1, q.2.1))
    rw [TaskCreationAgent.zip_enum_proj descs u2 0 h2,
      TaskCreationAgent.zip_enum_proj descs u1 0 h1]
  · intro t ht
    rw [TaskCreationAgent.replaceQueue_eq descs u2 _] at ht
    obtain ⟨q, _, rfl⟩ := List.mem_map.mp ht
    rfl
  · intro t ht
    rw [TaskCreationAgent.replaceQueue_eq descs u1 store] at ht
    obtain ⟨q, _, rfl⟩ := List.mem_map.mp ht
    rfl

/-- Witness for C7: replacing twice with `["X", "Y"]` and different uuid
draws leaves the same orders and descriptions as replacing once. -/
theorem replaceQueue_idempotent_effect_witness :
    ((TaskCreationAgent.replaceQueue ["X", "Y"] ["uuid-c", "uuid-d"]
          (TaskCreationAgent.replaceQueue ["X", "Y"] ["uuid-a", "uuid-b"] [])).map
        (fun t => (t.metadata.order, t.metadata.description)) =
      (TaskCreationAgent.replaceQueue ["X", "Y"] ["uuid-a", "uuid-b"] []).map
        (fun t => (t.metadata.order, t.metadata.description))) ∧
    (∀ t ∈ TaskCreationAgent.replaceQueue ["X", "Y"] ["uuid-c", "uuid-d"]
        (TaskCreationAgent.replaceQueue ["X", "Y"] ["uuid-a", "uuid-b"] []),
        t.metadata.status = "not completed") ∧
    (∀ t ∈ TaskCreationAgent.replaceQueue ["X", "Y"] ["uuid-a", "uuid-b"] [],
        t.metadata.status = "not completed") :=
  replaceQueue_idempotent_effect ["X", "Y"] ["uuid-a", "uuid-b"] ["uuid-c", "uuid-d"]
    [] (by decide) (by decide)

namespace StatusAgent

/-- The separator written between entries of the results log by
`StatusAgent.log_task_results`. -/
def logSeparator : String := "\n\n\n\n---\n\n\n\n"

/-- Python `str.lower()`: character-wise lower-casing of the underlying
character list (structural, so it evaluates inside the kernel; agrees with
`String.toLower`, which is defined through a non-structural iterator). -/
def pyLower (s : String) : String :=
  String.mk (s.data.map Char.toLower)

/-- Python `str.strip()`: removes leading and trailing whitespace from the
underlying character list (structural; agrees with `String.trim`). -/
def pyStrip (s : String) : String :=
  String.mk (((s.data.dropWhile Char.isWhitespace).reverse.dropWhile
    Char.isWhitespace).reverse)

/-- The task dict built by `StatusAgent.parse_result`. -/
structure StatusTask where
  task_id : String
  description : String
  status : String
  order : Nat
deriving DecidableEq, Repr

/-- The dict stored in `self.result` by `StatusAgent.parse_result` on
success: the task, its status, and the reason. -/
structure StatusResult where
  task : StatusTask
  status : String
  reason : String
deriving DecidableEq, Repr

/-- The parameters of one `storage.save_memory` call. -/
structure SaveParams where
  collection : String
  ids : List String
  data : List String
  metadata : List TaskMeta
deriving DecidableEq, Repr

/-- Embedding of `StatusAgent.parse_result` (StatusAgent.py lines 25-68).
Inputs: the external `parse_yaml_string` output (`none` embeds "no valid
YAML content", where the source raises and the handler sets the result to
the empty dict), the current task (`self.data["current_task"]`) and the
raw result text (`self.data["task_result"]`).  Output: the resulting
`self.result` (`none` embeds the empty dict) and the text appended to the
results log by `log_task_results`, which happens exactly when the parsed
status is `"completed"`.  The status is `.get("status", "")` lower-cased
and stripped, the reason `.get("reason", "")` stripped. -/
def parse_result (parsed : Option (List (String × String)))
    (current_task : StoredTask) (task_result : String) :
    Option StatusResult × Option String :=
  match parsed with
  | none => (none, none)
  | some d =>
    let status := pyStrip (pyLower ((d.lookup "status").getD ""))
    let reason := pyStrip ((d.lookup "reason").getD "")
    let task : StatusTask :=
      ⟨current_task.id, current_task.metadata.description, status,
       current_task.metadata.order⟩
    (some ⟨task, status, reason⟩,
     if status = "completed" then
       some (logSeparator ++ "\nTask: " ++ task.description ++ "\n\n" ++ task_result)
     else none)

/-- Embedding of `StatusAgent.save_status` (StatusAgent.py lines 70-92),
as invoked through `save_result`: on the empty result dict the key
accesses raise and the handler suppresses the error, so no store write
happens (`none`); otherwise the write against the `"Tasks"` collection
with metadata `{Status, Description, Order}` (no `List_ID`). -/
def save_status (result : Option StatusResult) : Option SaveParams :=
  match result with
  | none => none
  | some r =>
    some ⟨"Tasks", [r.task.task_id], [r.task.description],
      [⟨r.status, r.task.description, r.task.order, none⟩]⟩

/-- The `evaluate` operation of the spec: `parse_result` followed by
`save_result` (which delegates to `save_status`).  Returns the status
result, the appended log entry if any, and the store write if any. -/
def evaluate (parsed : Option (List (String × String)))
    (current_task : StoredTask) (task_result : String) :
    Option StatusResult × Option String × Option SaveParams :=
  let p := parse_result parsed current_task task_result
  (p.1, p.2, save_status p.1)

end StatusAgent

/-- C3 (counterexample to the claim as stated): on a report whose
structured content lacks a `status` key (here `{"reason": "x"}`),
`evaluate` does not return an empty StatusResult and does persist a task
mutation: `parse_result` defaults the missing key to `""` and builds a
full result, and `save_status` issues a store write with `Status` the
empty string. -/
theorem statusEvaluate_missing_status_not_empty :
    (StatusAgent.evaluate (some [("reason", "x")])
        ⟨"1", "T", ⟨"not completed", "T", 1, none⟩⟩ "raw").1 =
      some ⟨⟨"1", "T", "", 1⟩, "", "x"⟩ ∧
    (StatusAgent.evaluate (some [("reason", "x")])
        ⟨"1", "T", ⟨"not completed", "T", 1, none⟩⟩ "raw").2.2 =
      some ⟨"Tasks", ["1"], ["T"], [⟨"", "T", 1, none⟩]⟩ ∧
    (StatusAgent.evaluate (some [("reason", "x")])
        ⟨"1", "T", ⟨"not completed", "T", 1, none⟩⟩ "raw").1 ≠ none ∧
    (StatusAgent.evaluate (some [("reason", "x")])
        ⟨"1", "T", ⟨"not completed", "T", 1, none⟩⟩ "raw").2.2 ≠ none := by
  refine ⟨rfl, rfl, ?_, ?_⟩ <;> decide

/-- C3 (amended): on structured content lacking a `status` key, `evaluate`
returns a StatusResult whose status is the empty string (not an empty
StatusResult) and persists a `"Tasks"` write whose `Status` is the empty
string; the empty StatusResult with no persistence arises exactly in the
no-structured-content case. -/
theorem statusEvaluate_missing_status_amended
    (d : List (String × String)) (hd : d.lookup "status" = none)
    (ct : StoredTask) (raw : String) :
    (StatusAgent.evaluate (some d) ct raw).1 =
      some ⟨⟨ct.id, ct.metadata.description, "", ct.metadata.order⟩, "",
        StatusAgent.pyStrip ((d.lookup "reason").getD "")⟩ ∧
    (StatusAgent.evaluate (some d) ct raw).2.2 =
      some ⟨"Tasks", [ct.id], [ct.metadata.description],
        [⟨"", ct.metadata.description, ct.metadata.order, none⟩]⟩ ∧
    (StatusAgent.evaluate none ct raw).1 = none ∧
    (StatusAgent.evaluate none ct raw).2.2 = none := by
  have hstatus : StatusAgent.pyStrip (StatusAgent.pyLower ((d.lookup "status").getD "")) = "" := by
    rw [hd]
    rfl
  refine ⟨?_, ?_, rfl, rfl⟩
  · simp [StatusAgent.evaluate, StatusAgent.parse_result, hstatus]
  · simp [StatusAgent.evaluate, StatusAgent.parse_result, StatusAgent.save_status, hstatus]

/-- Witness for the amended C3 at the concrete content `{"reason": "x"}`
and a concrete current task. -/
theorem statusEvaluate_missing_status_amended_witness :
    (StatusAgent.evaluate (some [("reason", "x")])
        ⟨"1", "T", ⟨"not completed", "T", 1, none⟩⟩ "raw").1 =
      some ⟨⟨"1", "T", "", 1⟩, "",
        StatusAgent.pyStrip (([("reason", "x")].lookup "reason").getD "")⟩ ∧
    (StatusAgent.evaluate (some [("reason", "x")])
        ⟨"1", "T", ⟨"not completed", "T", 1, none⟩⟩ "raw").2.2 =
      some ⟨"Tasks", ["1"], ["T"], [⟨"", "T", 1, none⟩]⟩ ∧
    (StatusAgent.evaluate none ⟨"1", "T", ⟨"not completed", "T", 1, none⟩⟩ "raw").1 =
      none ∧
    (StatusAgent.evaluate none ⟨"1", "T", ⟨"not completed", "T", 1, none⟩⟩ "raw").2.2 =
      none :=
  statusEvaluate_missing_status_amended [("reason", "x")] rfl
    ⟨"1", "T", ⟨"not completed", "T", 1, none⟩⟩ "raw"

/-- C8: on the structured content `{"status": "completed", "reason":
"done"}`, `evaluate` produces the StatusResult with status `"completed"`
(lower-cased and trimmed) and reason `"done"`, and appends to the results
log the transcript entry made of the separator, the task description and
the full raw result; and for any successfully parsed content a transcript
entry is appended exactly when the parsed status equals `"completed"`. -/
theorem statusEvaluate_completed_logs (ct : StoredTask) (raw : String) :
    (StatusAgent.evaluate (some [("status", "completed"), ("reason", "done")]) ct raw).1 =
      some ⟨⟨ct.id, ct.metadata.description, "completed", ct.metadata.order⟩,
        "completed", "done"⟩ ∧
    (StatusAgent.evaluate (some [("status", "completed"), ("reason", "done")]) ct raw).2.1 =
      some (StatusAgent.logSeparator ++ "\nTask: " ++ ct.metadata.description ++
        "\n\n" ++ raw) ∧
    (∀ d : List (String × String),
      (StatusAgent.evaluate (some d) ct raw).2.1 ≠ none ↔
        StatusAgent.pyStrip (StatusAgent.pyLower ((d.lookup "status").getD "")) = "completed") := by
  refine ⟨rfl, rfl, ?_⟩
  intro d
  simp only [StatusAgent.evaluate, StatusAgent.parse_result]
  by_cases hs : StatusAgent.pyStrip (StatusAgent.pyLower ((d.lookup "status").getD "")) = "completed"
  · simp [hs]
  · simp [hs]

/-- Witness for C8 at a concrete current task and raw result. -/
theorem statusEvaluate_completed_logs_witness :
    (StatusAgent.evaluate (some [("status", "completed"), ("reason", "done")])
        ⟨"1", "T", ⟨"not completed", "T", 1, none⟩⟩ "the raw result").2.1 =
      some (StatusAgent.logSeparator ++ "\nTask: " ++ "T" ++ "\n\n" ++ "the raw result") :=
  (statusEvaluate_completed_logs ⟨"1", "T", ⟨"not completed", "T", 1, none⟩⟩
    "the raw result").2.1
